import Mathlib

/-!
Shallow embedding of the CortexSOC detection engine
(`src/cortexsoc/detect.py`) and proofs about it.

Modelling conventions:
* A Python log dict becomes `LogRecord` with `Option String` fields;
  `r.get(k)` is the field value, Python truthiness (`if not user`) is
  `truthy` (a missing key or the empty string count as falsy).
* The module-level dictionaries `_seen_origins` / `_failed_logins` become an
  explicit `DetectState` threaded through the rules; `defaultdict` lookup is
  `dictGet` with a default, mutation is `dictSet`.  (The module-level
  `_user_login_times` is dead: `rule_rapid_multiple_logins` shadows it with a
  local dictionary, so it is not part of the state.)
* `datetime.fromisoformat` is modelled on the common ISO-8601 subset
  `YYYY-MM-DD{T or space}HH:MM:SS` with an optional `+HH:MM` / `-HH:MM`
  offset (no fractional seconds); the result keeps exactly the data the
  engine observes: the wall-clock hour, the instant in microseconds used by
  comparison/subtraction, and whether the value is offset-aware.
* CPython raises `TypeError` when `list.sort` compares an offset-aware and an
  offset-naive `datetime`; a user group mixing the two kinds with at least
  two elements always triggers such a comparison, so `rule_rapid_multiple_logins`
  returns `Except.error ()` there and `detect_all` propagates it (uncaught in
  the source).
-/

/-- Normalized log record: the fields of the input dict that the detection
engine reads, each optional exactly as `dict.get` is. -/
structure LogRecord where
  type : Option String
  user : Option String
  origin : Option String
  ip : Option String
  timestamp : Option String
deriving DecidableEq, Repr

/-- Alert dict produced by the rules.  Fields absent from a given rule's
alert dict are `none`.  `record` is `none` when the Python value is `None`. -/
structure Alert where
  user : String
  reason : String
  severity : String
  origin : Option String
  failed_count : Option Nat
  hour : Option Nat
  logins_in_window : Option Nat
  window_seconds : Option Nat
  record : Option LogRecord
deriving DecidableEq, Repr

/-- Python truthiness filter for optional string fields: `if not x` skips
both a missing key and an empty string. -/
def truthy : Option String → Option String
  | none => none
  | some s => if s = "" then none else some s

/-- Dictionary lookup with a default (`defaultdict` read access). -/
def dictGet {α : Type} : List (String × α) → String → α → α
  | [], _, d => d
  | (k, v) :: t, k₀, d => if k = k₀ then v else dictGet t k₀ d

/-- Dictionary write: update in place when the key exists, append otherwise
(preserving Python's insertion order of keys). -/
def dictSet {α : Type} : List (String × α) → String → α → List (String × α)
  | [], k₀, v₀ => [(k₀, v₀)]
  | (k, v) :: t, k₀, v₀ => if k = k₀ then (k, v₀) :: t else (k, v) :: dictSet t k₀ v₀

/-- Plain dictionary lookup (no default). -/
def dictFind {α : Type} : List (String × α) → String → Option α
  | [], _ => none
  | (k, v) :: t, k₀ => if k = k₀ then some v else dictFind t k₀

/-- The data a parsed `datetime` contributes to the engine: wall-clock hour,
the instant (wall clock minus UTC offset) in microseconds as used by
`datetime` comparison and subtraction, and offset-awareness. -/
structure PyDateTime where
  instMicros : Int
  hour : Nat
  aware : Bool
deriving DecidableEq, Repr

/-- `str.replace("Z", "+00:00")`: every `Z` character is replaced. -/
def pyReplaceZ (s : String) : String :=
  ⟨s.toList.flatMap fun c => if c = 'Z' then "+00:00".toList else [c]⟩

/-- Decimal digit value of a character, if any. -/
def digitVal (c : Char) : Option Nat :=
  if c.isDigit then some (c.toNat - 48) else none

/-- Parse exactly two decimal digits. -/
def parse2 : List Char → Option (Nat × List Char)
  | a :: b :: rest =>
    match digitVal a, digitVal b with
    | some x, some y => some (10 * x + y, rest)
    | _, _ => none
  | _ => none

/-- Parse exactly four decimal digits. -/
def parse4 (cs : List Char) : Option (Nat × List Char) :=
  match parse2 cs with
  | some (hi, rest) =>
    match parse2 rest with
    | some (lo, rest') => some (100 * hi + lo, rest')
    | none => none
  | none => none

/-- Consume one expected character. -/
def expectChar (c : Char) : List Char → Option (List Char)
  | x :: rest => if x = c then some rest else none
  | [] => none

/-- Gregorian leap year test. -/
def isLeap (y : Nat) : Bool :=
  (y % 4 = 0 && y % 100 ≠ 0) || y % 400 = 0

/-- Length of a month. -/
def daysInMonth (y m : Nat) : Nat :=
  if m = 2 then (if isLeap y then 29 else 28)
  else if m = 4 || m = 6 || m = 9 || m = 11 then 30
  else 31

/-- Days in the months strictly before month `m` of year `y`. -/
def daysBeforeMonth (y m : Nat) : Nat :=
  (List.range (m - 1)).foldl (fun acc i => acc + daysInMonth y (i + 1)) 0

/-- Proleptic Gregorian ordinal of a date (`date.toordinal`,
day 1 = 0001-01-01). -/
def toOrdinal (y m d : Nat) : Nat :=
  365 * (y - 1) + (y - 1) / 4 - (y - 1) / 100 + (y - 1) / 400 + daysBeforeMonth y m + d

/-- Model of `datetime.fromisoformat` on the subset
`YYYY-MM-DD{T or space}HH:MM:SS[±HH:MM]` with full range validation. -/
def pyFromisoformat (s : String) : Option PyDateTime := do
  let cs := s.toList
  let (y, r1) ← parse4 cs
  let r2 ← expectChar '-' r1
  let (mo, r3) ← parse2 r2
  let r4 ← expectChar '-' r3
  let (d, r5) ← parse2 r4
  let r6 ← match r5 with
    | c :: rest => if c = 'T' || c = ' ' then some rest else none
    | [] => none
  let (h, r7) ← parse2 r6
  let r8 ← expectChar ':' r7
  let (mi, r9) ← parse2 r8
  let r10 ← expectChar ':' r9
  let (sec, r11) ← parse2 r10
  let off : Option (Option (Bool × Nat × Nat)) := match r11 with
    | [] => some none
    | c :: rest =>
      if c = '+' || c = '-' then
        match parse2 rest with
        | some (oh, rest') =>
          match expectChar ':' rest' with
          | some rest'' =>
            match parse2 rest'' with
            | some (om, rest3) =>
              if rest3 = [] then some (some (c = '-', oh, om)) else none
            | none => none
          | none => none
        | none => none
      else none
  let offv ← off
  let offOk : Bool := match offv with
    | some (_, oh, om) => oh ≤ 23 && om ≤ 59
    | none => true
  if 1 ≤ y ∧ 1 ≤ mo ∧ mo ≤ 12 ∧ 1 ≤ d ∧ d ≤ daysInMonth y mo ∧
      h ≤ 23 ∧ mi ≤ 59 ∧ sec ≤ 59 ∧ offOk = true then
    let wall : Int := ((toOrdinal y mo d * 86400 + h * 3600 + mi * 60 + sec : Nat) : Int) * 1000000
    let offMicros : Int := match offv with
      | some (neg, oh, om) =>
        (if neg then -1 else 1) * ((oh * 3600 + om * 60 : Nat) : Int) * 1000000
      | none => 0
    some { instMicros := wall - offMicros, hour := h, aware := offv.isSome }
  else
    none

/-- The engine's timestamp handling:
`datetime.fromisoformat(timestamp_str.replace("Z", "+00:00"))`. -/
def parseTimestamp (s : String) : Option PyDateTime :=
  pyFromisoformat (pyReplaceZ s)

/-- Map from user to the set of origins already seen (`_seen_origins`);
the set is kept as a list, membership being all the code observes. -/
abbrev SeenMap := List (String × List String)

/-- Map from user to the running failed-login counter (`_failed_logins`). -/
abbrev CountMap := List (String × Nat)

/-- Alert emitted by the new-origin rule. -/
def mkNewOriginAlert (u o : String) (r : LogRecord) : Alert :=
  { user := u, reason := "new_origin", severity := "medium", origin := some o,
    failed_count := none, hour := none, logins_in_window := none,
    window_seconds := none, record := some r }

/-- Alert emitted by the failed-login-threshold rule. -/
def mkFailedAlert (u : String) (c : Nat) (r : LogRecord) : Alert :=
  { user := u, reason := "failed_login_threshold", severity := "high", origin := none,
    failed_count := some c, hour := none, logins_in_window := none,
    window_seconds := none, record := some r }

/-- Alert emitted by the unusual-time rule. -/
def mkUnusualAlert (u : String) (h : Nat) (r : LogRecord) : Alert :=
  { user := u, reason := "unusual_login_time", severity := "low", origin := none,
    failed_count := none, hour := some h, logins_in_window := none,
    window_seconds := none, record := some r }

/-- Alert emitted by the rapid-logins rule.  Its `record` entry in the source
is `times[i].__dict__ if hasattr(times[i], '__dict__') else None`; CPython
`datetime` instances have no `__dict__`, so the value is always `None`. -/
def mkRapidAlert (u : String) (n w : Nat) : Alert :=
  { user := u, reason := "rapid_logins", severity := "medium", origin := none,
    failed_count := none, hour := none, logins_in_window := some n,
    window_seconds := some w, record := none }

/-- `rule_login_from_new_origin`: for each `login` record with truthy `user`
and `origin`, alert and mark the origin seen when it is not in
`_seen_origins[user]`. -/
def rule_login_from_new_origin : List LogRecord → SeenMap → List Alert × SeenMap
  | [], seen => ([], seen)
  | r :: rest, seen =>
    if r.type = some "login" then
      match truthy r.user, truthy r.origin with
      | some u, some o =>
        if o ∈ dictGet seen u [] then
          rule_login_from_new_origin rest seen
        else
          let next := rule_login_from_new_origin rest (dictSet seen u (o :: dictGet seen u []))
          (mkNewOriginAlert u o r :: next.1, next.2)
      | _, _ => rule_login_from_new_origin rest seen
    else rule_login_from_new_origin rest seen

/-- `rule_failed_login_threshold`: for each `failed_login` record with truthy
`user`, increment the persistent counter and alert when it reaches the
threshold. -/
def rule_failed_login_threshold : List LogRecord → Nat → CountMap → List Alert × CountMap
  | [], _, m => ([], m)
  | r :: rest, th, m =>
    if r.type = some "failed_login" then
      match truthy r.user with
      | some u =>
        let c := dictGet m u 0 + 1
        let next := rule_failed_login_threshold rest th (dictSet m u c)
        (if th ≤ c then mkFailedAlert u c r :: next.1 else next.1, next.2)
      | none => rule_failed_login_threshold rest th m
    else rule_failed_login_threshold rest th m

/-- `rule_login_unusual_time`: for each `login` record with truthy `user` and
a parsable `timestamp`, alert when the hour falls in the wraparound window;
a failing parse is swallowed by the `try`/`except`. -/
def rule_login_unusual_time : List LogRecord → Nat × Nat → List Alert
  | [], _ => []
  | r :: rest, oh =>
    let tail := rule_login_unusual_time rest oh
    if r.type = some "login" then
      match truthy r.user, truthy r.timestamp with
      | some u, some tstr =>
        match parseTimestamp tstr with
        | some dt =>
          if oh.1 ≤ dt.hour ∨ dt.hour < oh.2 then mkUnusualAlert u dt.hour r :: tail
          else tail
        | none => tail
      | _, _ => tail
    else tail

/-- Grouping pass of `rule_rapid_multiple_logins`: append a parsed time to a
user's list, adding a fresh key at the end (Python dict insertion order). -/
def appendTime : List (String × List PyDateTime) → String → PyDateTime →
    List (String × List PyDateTime)
  | [], u, d => [(u, [d])]
  | (k, ts) :: rest, u, d =>
    if k = u then (k, ts ++ [d]) :: rest else (k, ts) :: appendTime rest u d

/-- First loop of `rule_rapid_multiple_logins`: collect parsed login times per
user over the batch, skipping records the rule skips. -/
def collectTimes : List LogRecord → List (String × List PyDateTime) →
    List (String × List PyDateTime)
  | [], m => m
  | r :: rest, m =>
    if r.type = some "login" then
      match truthy r.user, truthy r.timestamp with
      | some u, some tstr =>
        match parseTimestamp tstr with
        | some d => collectTimes rest (appendTime m u d)
        | none => collectTimes rest m
      | _, _ => collectTimes rest m
    else collectTimes rest m

/-- A list of datetimes mixing offset-aware and offset-naive values: sorting
such a list raises `TypeError` in CPython (any comparison sort must compare
the two kinds when both are present). -/
def awareMixed : List PyDateTime → Bool
  | [] => false
  | d :: rest => rest.any fun e => e.aware != d.aware

/-- Comparison used by `times.sort()`: ascending by the instant.  Python's
sort is stable; `List.insertionSort` with this total preorder computes the
same stable ascending permutation. -/
def leInstant (a b : PyDateTime) : Prop :=
  a.instMicros ≤ b.instMicros

instance : DecidableRel leInstant :=
  fun a b => show Decidable (a.instMicros ≤ b.instMicros) from inferInstance

instance : IsTotal PyDateTime leInstant :=
  ⟨fun a b => Int.le_total a.instMicros b.instMicros⟩

instance : IsTrans PyDateTime leInstant :=
  ⟨fun _ _ _ h h' => Int.le_trans h h'⟩

/-- Inner scan of `rule_rapid_multiple_logins`: walk adjacent pairs of the
sorted times and stop at the first gap strictly between 0 and the window
(`total_seconds` compared against integer bounds is exact at microsecond
granularity). -/
def hasRapidPair (w : Nat) : List PyDateTime → Bool
  | a :: b :: rest =>
    let delta := b.instMicros - a.instMicros
    if 0 < delta ∧ delta < (w : Int) * 1000000 then true
    else hasRapidPair w (b :: rest)
  | _ => false

/-- Per-user loop of `rule_rapid_multiple_logins`: sort each user's times
(raising on mixed awareness) and emit at most one alert per user. -/
def rapidGroups (w : Nat) : List (String × List PyDateTime) → Except Unit (List Alert)
  | [] => Except.ok []
  | (u, ts) :: rest =>
    if awareMixed ts then Except.error ()
    else
      let here := if hasRapidPair w (List.insertionSort leInstant ts) then
        [mkRapidAlert u ts.length w] else []
      match rapidGroups w rest with
      | Except.error e => Except.error e
      | Except.ok as => Except.ok (here ++ as)

/-- `rule_rapid_multiple_logins`: batch-local grouping, then the per-user
sort-and-scan; `Except.error` models the uncaught `TypeError` from
`times.sort()` on mixed aware/naive datetimes. -/
def rule_rapid_multiple_logins (logs : List LogRecord) (w : Nat) : Except Unit (List Alert) :=
  rapidGroups w (collectTimes logs [])

/-- The engine's persistent per-user state. -/
structure DetectState where
  seenOrigins : SeenMap
  failedLogins : CountMap
deriving DecidableEq, Repr

/-- Severity rank used as the sort key:
`{"high": 0, "medium": 1, "low": 2}.get(severity, 3)`. -/
def severityRank (s : String) : Nat :=
  if s = "high" then 0 else if s = "medium" then 1 else if s = "low" then 2 else 3

/-- Sort comparison on alerts by severity rank; the final `results.sort` is a
stable sort with this key, modelled by `List.insertionSort`. -/
def leSeverity (a b : Alert) : Prop :=
  severityRank a.severity ≤ severityRank b.severity

instance : DecidableRel leSeverity :=
  fun a b => show Decidable (severityRank a.severity ≤ severityRank b.severity) from inferInstance

instance : IsTotal Alert leSeverity :=
  ⟨fun a b => Nat.le_total (severityRank a.severity) (severityRank b.severity)⟩

instance : IsTrans Alert leSeverity :=
  ⟨fun _ _ _ h h' => Nat.le_trans h h'⟩

/-- Concatenation step of `detect_all`: run the four rules in their fixed
order over the batch (threading the persistent state) and append their alert
lists; an error in the rapid rule aborts with the state already mutated by
the first two rules. -/
def concatAlerts (logs : List LogRecord) (s : DetectState) :
    DetectState × Except Unit (List Alert) :=
  let no := rule_login_from_new_origin logs s.seenOrigins
  let fl := rule_failed_login_threshold logs 5 s.failedLogins
  let s' : DetectState := { seenOrigins := no.2, failedLogins := fl.2 }
  let ut := rule_login_unusual_time logs (22, 6)
  match rule_rapid_multiple_logins logs 60 with
  | Except.error e => (s', Except.error e)
  | Except.ok ra => (s', Except.ok (no.1 ++ fl.1 ++ ut ++ ra))

/-- `detect_all`: run all rules with their default configuration, then
stably sort the aggregated alerts by severity rank. -/
def detect_all (logs : List LogRecord) (s : DetectState) :
    DetectState × Except Unit (List Alert) :=
  match concatAlerts logs s with
  | (s', Except.error e) => (s', Except.error e)
  | (s', Except.ok res) => (s', Except.ok (List.insertionSort leSeverity res))

/-- Repeated `detect()` calls: run `detect_all` over successive batches,
collecting each call's outcome and threading the persistent state. -/
def detectRuns : List (List LogRecord) → DetectState →
    List (Except Unit (List Alert)) × DetectState
  | [], s => ([], s)
  | b :: bs, s =>
    let step := detect_all b s
    let rest := detectRuns bs step.1
    (step.2 :: rest.1, rest.2)

deriving instance DecidableEq for Except

/-! ### Dictionary lemmas -/

theorem dictGet_dictSet_self {α : Type} (m : List (String × α)) (k : String) (v d : α) :
    dictGet (dictSet m k v) k d = v := by
  induction m with
  | nil => simp [dictSet, dictGet]
  | cons p t ih =>
    obtain ⟨k', v'⟩ := p
    by_cases h : k' = k
    · subst h
      simp [dictSet, dictGet]
    · simp [dictSet, dictGet, h, ih]

theorem dictGet_dictSet_ne {α : Type} (m : List (String × α)) {k k₀ : String} (v : α) (d : α)
    (h : k ≠ k₀) : dictGet (dictSet m k v) k₀ d = dictGet m k₀ d := by
  induction m with
  | nil => simp [dictSet, dictGet, h]
  | cons p t ih =>
    obtain ⟨k', v'⟩ := p
    by_cases h' : k' = k
    · subst h'
      simp [dictSet, dictGet, h]
    · simp [dictSet, dictGet, h', ih]

/-! ### Unusual-time rule: claim C5 -/

theorem rule_login_unusual_time_append (l₁ l₂ : List LogRecord) (oh : Nat × Nat) :
    rule_login_unusual_time (l₁ ++ l₂) oh =
      rule_login_unusual_time l₁ oh ++ rule_login_unusual_time l₂ oh := by
  induction l₁ with
  | nil => rfl
  | cons r rest ih =>
    show rule_login_unusual_time (r :: (rest ++ l₂)) oh = _
    simp only [rule_login_unusual_time]
    split
    · cases hu : truthy r.user with
      | none => simpa [hu] using ih
      | some u =>
        cases ht : truthy r.timestamp with
        | none => simpa [hu, ht] using ih
        | some tstr =>
          cases hp : parseTimestamp tstr with
          | none => simpa [hu, ht, hp] using ih
          | some dt =>
            by_cases hh : oh.1 ≤ dt.hour ∨ dt.hour < oh.2
            · simp [hu, ht, hp, hh, ih]
            · simp [hu, ht, hp, hh, ih]
    · exact ih

/-- Claim C5: for every login record with a truthy user and a parsable
timestamp, the unusual-time rule emits `unusual_login_time` / `low` with the
extracted hour exactly when `hour ≥ start ∨ hour < end` of the window; the
rule treats records independently (so calls decompose over appends, and it
keeps no state), and an unparsable timestamp is silently skipped with no
alert and no error. -/
theorem c5_unusual_time_window :
    (∀ (l₁ l₂ : List LogRecord) (oh : Nat × Nat),
      rule_login_unusual_time (l₁ ++ l₂) oh =
        rule_login_unusual_time l₁ oh ++ rule_login_unusual_time l₂ oh) ∧
    (∀ (r : LogRecord) (oh : Nat × Nat) (u tstr : String) (dt : PyDateTime),
      r.type = some "login" → truthy r.user = some u → truthy r.timestamp = some tstr →
      parseTimestamp tstr = some dt →
      rule_login_unusual_time [r] oh =
        if oh.1 ≤ dt.hour ∨ dt.hour < oh.2 then [mkUnusualAlert u dt.hour r] else []) ∧
    (∀ (r : LogRecord) (oh : Nat × Nat) (tstr : String),
      truthy r.timestamp = some tstr → parseTimestamp tstr = none →
      rule_login_unusual_time [r] oh = []) := by
  refine ⟨rule_login_unusual_time_append, ?_, ?_⟩
  · intro r oh u tstr dt h1 h2 h3 h4
    by_cases hh : oh.1 ≤ dt.hour ∨ dt.hour < oh.2
    · simp [rule_login_unusual_time, h1, h2, h3, h4, hh]
    · simp [rule_login_unusual_time, h1, h2, h3, h4, hh]
  · intro r oh tstr h3 h4
    by_cases h1 : r.type = some "login"
    · cases h2 : truthy r.user with
      | none => simp [rule_login_unusual_time, h1, h2]
      | some u => simp [rule_login_unusual_time, h1, h2, h3, h4]
    · simp [rule_login_unusual_time, h1]

/-! ### New-origin rule: claim C3 -/

/-- Record that the new-origin rule treats as carrying the user/origin pair
`(u, o)`: a `login` with both fields truthy and equal to the pair. -/
def isLoginPair (u o : String) (r : LogRecord) : Bool :=
  r.type == some "login" && truthy r.user == some u && truthy r.origin == some o

theorem rule_login_from_new_origin_append (l₁ l₂ : List LogRecord) (seen : SeenMap) :
    rule_login_from_new_origin (l₁ ++ l₂) seen =
      ((rule_login_from_new_origin l₁ seen).1 ++
        (rule_login_from_new_origin l₂ (rule_login_from_new_origin l₁ seen).2).1,
       (rule_login_from_new_origin l₂ (rule_login_from_new_origin l₁ seen).2).2) := by
  induction l₁ generalizing seen with
  | nil => rfl
  | cons r rest ih =>
    by_cases ht : r.type = some "login"
    · cases hu : truthy r.user with
      | none => simp [rule_login_from_new_origin, ht, hu, ih]
      | some u =>
        cases ho : truthy r.origin with
        | none => simp [rule_login_from_new_origin, ht, hu, ho, ih]
        | some o =>
          by_cases hmem : o ∈ dictGet seen u []
          · simp [rule_login_from_new_origin, ht, hu, ho, hmem, ih]
          · simp [rule_login_from_new_origin, ht, hu, ho, hmem, ih]
    · simp [rule_login_from_new_origin, ht, ih]

theorem mem_seen_rule_login_from_new_origin {u o : String} :
    ∀ (logs : List LogRecord) (seen : SeenMap), o ∈ dictGet seen u [] →
      o ∈ dictGet (rule_login_from_new_origin logs seen).2 u [] := by
  intro logs
  induction logs with
  | nil => intro seen h; exact h
  | cons r rest ih =>
    intro seen h
    by_cases ht : r.type = some "login"
    · cases hu : truthy r.user with
      | none => simpa [rule_login_from_new_origin, ht, hu] using ih seen h
      | some u' =>
        cases ho : truthy r.origin with
        | none => simpa [rule_login_from_new_origin, ht, hu, ho] using ih seen h
        | some o' =>
          by_cases hmem : o' ∈ dictGet seen u' []
          · simpa [rule_login_from_new_origin, ht, hu, ho, hmem] using ih seen h
          · have h' : o ∈ dictGet (dictSet seen u' (o' :: dictGet seen u' [])) u [] := by
              by_cases huu : u' = u
              · subst huu
                rw [dictGet_dictSet_self]
                exact List.mem_cons_of_mem _ h
              · rw [dictGet_dictSet_ne _ _ _ huu]
                exact h
            simpa [rule_login_from_new_origin, ht, hu, ho, hmem] using ih _ h'
    · simpa [rule_login_from_new_origin, ht] using ih seen h

theorem rule_login_from_new_origin_filter_of_mem {u o : String} :
    ∀ (logs : List LogRecord) (seen : SeenMap), o ∈ dictGet seen u [] →
      (rule_login_from_new_origin logs seen).1.filter
        (fun a => a.user == u && a.origin == some o) = [] := by
  intro logs
  induction logs with
  | nil => intro seen _; rfl
  | cons r rest ih =>
    intro seen h
    by_cases ht : r.type = some "login"
    · cases hu : truthy r.user with
      | none => simpa [rule_login_from_new_origin, ht, hu] using ih seen h
      | some u' =>
        cases ho : truthy r.origin with
        | none => simpa [rule_login_from_new_origin, ht, hu, ho] using ih seen h
        | some o' =>
          by_cases hmem : o' ∈ dictGet seen u' []
          · simpa [rule_login_from_new_origin, ht, hu, ho, hmem] using ih seen h
          · have hne : ¬(u' = u ∧ o' = o) := by
              rintro ⟨rfl, rfl⟩
              exact hmem h
            have h' : o ∈ dictGet (dictSet seen u' (o' :: dictGet seen u' [])) u [] := by
              by_cases huu : u' = u
              · subst huu
                rw [dictGet_dictSet_self]
                exact List.mem_cons_of_mem _ h
              · rw [dictGet_dictSet_ne _ _ _ huu]
                exact h
            have hpred : ((mkNewOriginAlert u' o' r).user == u &&
                (mkNewOriginAlert u' o' r).origin == some o) = false := by
              by_cases huu : u' = u
              · have hoo : o' ≠ o := fun hh => hne ⟨huu, hh⟩
                simp [mkNewOriginAlert, huu, hoo]
              · simp [mkNewOriginAlert, huu]
            simpa [rule_login_from_new_origin, ht, hu, ho, hmem, hpred] using ih _ h'
    · simpa [rule_login_from_new_origin, ht] using ih seen h

theorem rule_login_from_new_origin_filter_first {u o : String} :
    ∀ (logs : List LogRecord) (seen : SeenMap), o ∉ dictGet seen u [] →
      (rule_login_from_new_origin logs seen).1.filter
          (fun a => a.user == u && a.origin == some o) =
        (logs.find? (isLoginPair u o)).elim [] (fun r => [mkNewOriginAlert u o r]) := by
  intro logs
  induction logs with
  | nil => intro seen _; rfl
  | cons r rest ih =>
    intro seen h
    by_cases ht : r.type = some "login"
    · cases hu : truthy r.user with
      | none =>
        have hp : isLoginPair u o r = false := by simp [isLoginPair, hu]
        simpa [rule_login_from_new_origin, ht, hu, List.find?_cons, hp] using ih seen h
      | some u' =>
        cases ho : truthy r.origin with
        | none =>
          have hp : isLoginPair u o r = false := by simp [isLoginPair, ho]
          simpa [rule_login_from_new_origin, ht, hu, ho, List.find?_cons, hp] using ih seen h
        | some o' =>
          by_cases hmem : o' ∈ dictGet seen u' []
          · have hp : isLoginPair u o r = false := by
              by_cases huu : u' = u
              · subst huu
                have hoo : o' ≠ o := by
                  rintro rfl
                  exact h hmem
                simp [isLoginPair, hu, ho, hoo]
              · simp [isLoginPair, hu, ho, huu]
            simpa [rule_login_from_new_origin, ht, hu, ho, hmem, List.find?_cons, hp]
              using ih seen h
          · by_cases huu : u' = u
            · by_cases hoo : o' = o
              · subst huu
                subst hoo
                have hp : isLoginPair u' o' r = true := by simp [isLoginPair, ht, hu, ho]
                have hmem' : o' ∈ dictGet (dictSet seen u' (o' :: dictGet seen u' [])) u' [] := by
                  rw [dictGet_dictSet_self]
                  exact List.mem_cons_self _ _
                have hrest := rule_login_from_new_origin_filter_of_mem rest _ hmem'
                simp [rule_login_from_new_origin, ht, hu, ho, hmem, List.find?_cons, hp,
                  mkNewOriginAlert, hrest]
              · subst huu
                have hp : isLoginPair u' o r = false := by simp [isLoginPair, hu, ho, hoo]
                have h' : o ∉ dictGet (dictSet seen u' (o' :: dictGet seen u' [])) u' [] := by
                  rw [dictGet_dictSet_self]
                  intro hin
                  rcases List.mem_cons.mp hin with h1 | h1
                  · exact hoo h1.symm
                  · exact h h1
                have hpred : ((mkNewOriginAlert u' o' r).user == u' &&
                    (mkNewOriginAlert u' o' r).origin == some o) = false := by
                  simp [mkNewOriginAlert, hoo]
                simpa [rule_login_from_new_origin, ht, hu, ho, hmem, List.find?_cons, hp, hpred]
                  using ih _ h'
            · have hp : isLoginPair u o r = false := by simp [isLoginPair, hu, ho, huu]
              have h' : o ∉ dictGet (dictSet seen u' (o' :: dictGet seen u' [])) u [] := by
                rw [dictGet_dictSet_ne _ _ _ huu]
                exact h
              have hpred : ((mkNewOriginAlert u' o' r).user == u &&
                  (mkNewOriginAlert u' o' r).origin == some o) = false := by
                simp [mkNewOriginAlert, huu]
              simpa [rule_login_from_new_origin, ht, hu, ho, hmem, List.find?_cons, hp, hpred]
                using ih _ h'
    · have hp : isLoginPair u o r = false := by simp [isLoginPair, ht]
      simpa [rule_login_from_new_origin, ht, List.find?_cons, hp] using ih seen h

/-- Repeated calls of the new-origin rule across separate batches, threading
the persistent seen-origins map exactly as successive `detect()` calls do. -/
def runNewOriginBatches : List (List LogRecord) → SeenMap → List (List Alert) × SeenMap
  | [], seen => ([], seen)
  | b :: bs, seen =>
    let step := rule_login_from_new_origin b seen
    let rest := runNewOriginBatches bs step.2
    (step.1 :: rest.1, rest.2)

theorem runNewOriginBatches_flatten (bs : List (List LogRecord)) (seen : SeenMap) :
    (runNewOriginBatches bs seen).1.flatten =
      (rule_login_from_new_origin bs.flatten seen).1 ∧
    (runNewOriginBatches bs seen).2 = (rule_login_from_new_origin bs.flatten seen).2 := by
  induction bs generalizing seen with
  | nil => exact ⟨rfl, rfl⟩
  | cons b bs ih =>
    refine ⟨?_, ?_⟩
    · simp [runNewOriginBatches, List.flatten_cons, rule_login_from_new_origin_append,
        (ih _).1]
    · simp [runNewOriginBatches, List.flatten_cons, rule_login_from_new_origin_append,
        (ih _).2]

/-- Claim C3: from a fresh state, among all the `new_origin` alerts for a
given user/origin pair produced across any number of calls, there is exactly
one, fired by the first login record carrying that pair (with
severity `medium`, via `mkNewOriginAlert`); every later record with the
identical pair, in the same batch or any later one, fires nothing. -/
theorem c3_new_origin_first_fire (bs : List (List LogRecord)) (u o : String) :
    (runNewOriginBatches bs []).1.flatten.filter
        (fun a => a.user == u && a.origin == some o) =
      (bs.flatten.find? (isLoginPair u o)).elim [] (fun r => [mkNewOriginAlert u o r]) := by
  rw [(runNewOriginBatches_flatten bs []).1]
  exact rule_login_from_new_origin_filter_first bs.flatten [] (by simp [dictGet])

/-! ### State monotonicity: claim C9 -/

/-- Record that increments user `u`'s failed-login counter. -/
def isFailedFor (u : String) (r : LogRecord) : Bool :=
  r.type == some "failed_login" && truthy r.user == some u

/-- Number of failed-login records of the batch that bear user `u`. -/
def countFailedFor (logs : List LogRecord) (u : String) : Nat :=
  (logs.filter (isFailedFor u)).length

theorem dictGet_rule_failed_login_threshold (logs : List LogRecord) (th : Nat) (u : String) :
    ∀ m : CountMap,
      dictGet (rule_failed_login_threshold logs th m).2 u 0 =
        dictGet m u 0 + countFailedFor logs u := by
  induction logs with
  | nil => intro m; simp [rule_failed_login_threshold, countFailedFor]
  | cons r rest ih =>
    intro m
    by_cases ht : r.type = some "failed_login"
    · cases hu : truthy r.user with
      | none =>
        have hf : isFailedFor u r = false := by simp [isFailedFor, hu]
        simp [rule_failed_login_threshold, ht, hu, ih, countFailedFor, List.filter_cons, hf]
      | some u' =>
        by_cases huu : u' = u
        · subst huu
          have hf : isFailedFor u' r = true := by simp [isFailedFor, ht, hu]
          simp only [rule_failed_login_threshold, ht, hu, if_pos, ih, countFailedFor,
            List.filter_cons, hf, if_true, List.length_cons, dictGet_dictSet_self]
          omega
        · have hf : isFailedFor u r = false := by simp [isFailedFor, hu, huu]
          simp only [rule_failed_login_threshold, ht, hu, if_pos, ih, countFailedFor,
            List.filter_cons, hf, Bool.false_eq_true, if_false,
            dictGet_dictSet_ne _ _ _ huu]
    · have hf : isFailedFor u r = false := by simp [isFailedFor, ht]
      simp [rule_failed_login_threshold, ht, ih, countFailedFor, List.filter_cons, hf]

theorem detect_all_fst (logs : List LogRecord) (s : DetectState) :
    (detect_all logs s).1 =
      { seenOrigins := (rule_login_from_new_origin logs s.seenOrigins).2,
        failedLogins := (rule_failed_login_threshold logs 5 s.failedLogins).2 } := by
  unfold detect_all concatAlerts
  cases rule_rapid_multiple_logins logs 60 <;> rfl

/-- Claim C9: the persistent state is monotone under `detect_all`: every
origin seen for a user before a call is still seen after it, and the user's
failed-login counter never decreases — it grows by exactly the number of
`failed_login` records bearing that user in the batch, a running total
across the engine's lifetime. -/
theorem c9_state_monotone (logs : List LogRecord) (s : DetectState) (u : String) :
    (∀ o, o ∈ dictGet s.seenOrigins u [] →
        o ∈ dictGet ((detect_all logs s).1).seenOrigins u []) ∧
    dictGet s.failedLogins u 0 ≤ dictGet ((detect_all logs s).1).failedLogins u 0 ∧
    dictGet ((detect_all logs s).1).failedLogins u 0 =
      dictGet s.failedLogins u 0 + countFailedFor logs u := by
  rw [detect_all_fst]
  refine ⟨fun o ho => mem_seen_rule_login_from_new_origin logs s.seenOrigins ho, ?_, ?_⟩
  · rw [dictGet_rule_failed_login_threshold]
    omega
  · exact dictGet_rule_failed_login_threshold logs 5 u s.failedLogins

/-- Witness for C9 at a concrete batch and a concrete non-fresh state. -/
theorem c9_state_monotone_witness :
    "US" ∈ dictGet ((detect_all
        [⟨some "failed_login", some "bob", none, none, none⟩,
         ⟨some "login", some "alice", some "UK", none, none⟩]
        ⟨[("alice", ["US"])], [("bob", 2)]⟩).1).seenOrigins "alice" [] ∧
    dictGet ((detect_all
        [⟨some "failed_login", some "bob", none, none, none⟩,
         ⟨some "login", some "alice", some "UK", none, none⟩]
        ⟨[("alice", ["US"])], [("bob", 2)]⟩).1).failedLogins "bob" 0 = 2 + 1 := by
  refine ⟨(c9_state_monotone
      [⟨some "failed_login", some "bob", none, none, none⟩,
       ⟨some "login", some "alice", some "UK", none, none⟩]
      ⟨[("alice", ["US"])], [("bob", 2)]⟩ "alice").1 "US" (by decide), ?_⟩
  rw [(c9_state_monotone
      [⟨some "failed_login", some "bob", none, none, none⟩,
       ⟨some "login", some "alice", some "UK", none, none⟩]
      ⟨[("alice", ["US"])], [("bob", 2)]⟩ "bob").2.2]
  decide

/-! ### Determinism: claim C10 -/

/-- Claim C10: `detect_all` is deterministic — equal prior states and equal
batches give element-for-element equal alert outcomes and equal posterior
states.  The embedding is a pure function of exactly these two inputs (dict
iteration is modelled in insertion order, as in CPython), so no hidden input
can influence the result. -/
theorem c10_deterministic (s₁ s₂ : DetectState) (l₁ l₂ : List LogRecord)
    (h₁ : s₁ = s₂) (h₂ : l₁ = l₂) : detect_all l₁ s₁ = detect_all l₂ s₂ := by
  rw [h₁, h₂]

/-- Witness for C10 at a concrete state and batch. -/
theorem c10_deterministic_witness :
    detect_all [⟨some "failed_login", some "bob", none, none, none⟩] ⟨[], [("bob", 4)]⟩ =
      detect_all [⟨some "failed_login", some "bob", none, none, none⟩] ⟨[], [("bob", 4)]⟩ :=
  c10_deterministic ⟨[], [("bob", 4)]⟩ ⟨[], [("bob", 4)]⟩
    [⟨some "failed_login", some "bob", none, none, none⟩]
    [⟨some "failed_login", some "bob", none, none, none⟩] rfl rfl

/-! ### Failed-login threshold rule: claim C1 -/

theorem rule_login_from_new_origin_skip :
    ∀ (l : List LogRecord) (seen : SeenMap), (∀ r ∈ l, r.type ≠ some "login") →
      rule_login_from_new_origin l seen = ([], seen) := by
  intro l
  induction l with
  | nil => intro seen _; rfl
  | cons r rest ih =>
    intro seen h
    have ht : r.type ≠ some "login" := h r (List.mem_cons_self _ _)
    have := ih seen fun r' hr' => h r' (List.mem_cons_of_mem _ hr')
    simp [rule_login_from_new_origin, ht, this]

theorem rule_login_unusual_time_skip :
    ∀ (l : List LogRecord) (oh : Nat × Nat), (∀ r ∈ l, r.type ≠ some "login") →
      rule_login_unusual_time l oh = [] := by
  intro l
  induction l with
  | nil => intro oh _; rfl
  | cons r rest ih =>
    intro oh h
    have ht : r.type ≠ some "login" := h r (List.mem_cons_self _ _)
    have := ih oh fun r' hr' => h r' (List.mem_cons_of_mem _ hr')
    simp [rule_login_unusual_time, ht, this]

theorem collectTimes_skip :
    ∀ (l : List LogRecord) (m : List (String × List PyDateTime)),
      (∀ r ∈ l, r.type ≠ some "login") → collectTimes l m = m := by
  intro l
  induction l with
  | nil => intro m _; rfl
  | cons r rest ih =>
    intro m h
    have ht : r.type ≠ some "login" := h r (List.mem_cons_self _ _)
    have := ih m fun r' hr' => h r' (List.mem_cons_of_mem _ hr')
    simp [collectTimes, ht, this]

theorem rule_rapid_multiple_logins_skip (l : List LogRecord) (w : Nat)
    (h : ∀ r ∈ l, r.type ≠ some "login") :
    rule_rapid_multiple_logins l w = Except.ok [] := by
  unfold rule_rapid_multiple_logins
  rw [collectTimes_skip l [] h]
  rfl

theorem rule_failed_stream (u : String) :
    ∀ (l : List LogRecord) (m : CountMap),
      (∀ r ∈ l, r.type = some "failed_login" ∧ truthy r.user = some u) →
      (rule_failed_login_threshold l 5 m).1.map (fun a => a.failed_count) =
        ((List.range' (dictGet m u 0 + 1) l.length).filter (fun n => decide (5 ≤ n))).map
          some ∧
      (∀ a ∈ (rule_failed_login_threshold l 5 m).1,
        a.user = u ∧ a.reason = "failed_login_threshold" ∧ a.severity = "high") := by
  intro l
  induction l with
  | nil => intro m _; exact ⟨rfl, by intro a ha; cases ha⟩
  | cons r rest ih =>
    intro m h
    have ht : r.type = some "failed_login" := (h r (List.mem_cons_self _ _)).1
    have hu : truthy r.user = some u := (h r (List.mem_cons_self _ _)).2
    have hrest := ih (dictSet m u (dictGet m u 0 + 1))
      fun r' hr' => h r' (List.mem_cons_of_mem _ hr')
    rw [dictGet_dictSet_self] at hrest
    by_cases hc : 5 ≤ dictGet m u 0 + 1
    · constructor
      · simp [rule_failed_login_threshold, ht, hu, hc, List.range'_succ,
          List.filter_cons, hrest.1, mkFailedAlert]
      · intro a ha
        simp only [rule_failed_login_threshold, ht, hu, if_pos hc] at ha
        simp only [eq_self_iff_true, if_true] at ha
        rcases List.mem_cons.mp ha with h1 | h1
        · subst h1
          exact ⟨rfl, rfl, rfl⟩
        · exact hrest.2 a h1
    · constructor
      · simp [rule_failed_login_threshold, ht, hu, hc, List.range'_succ,
          List.filter_cons, hrest.1]
      · intro a ha
        simp only [rule_failed_login_threshold, ht, hu, if_neg hc] at ha
        simp only [eq_self_iff_true, if_true] at ha
        exact hrest.2 a ha

theorem detect_all_failed_only (u : String) (l : List LogRecord) (s : DetectState)
    (h : ∀ r ∈ l, r.type = some "failed_login" ∧ truthy r.user = some u) :
    detect_all l s =
      ({ seenOrigins := s.seenOrigins,
         failedLogins := (rule_failed_login_threshold l 5 s.failedLogins).2 },
       Except.ok (rule_failed_login_threshold l 5 s.failedLogins).1) := by
  have hnl : ∀ r ∈ l, r.type ≠ some "login" := by
    intro r hr heq
    rw [(h r hr).1] at heq
    simp at heq
  have h1 := rule_login_from_new_origin_skip l s.seenOrigins hnl
  have h2 := rule_login_unusual_time_skip l (22, 6) hnl
  have h3 := rule_rapid_multiple_logins_skip l 60 hnl
  have hsort : List.insertionSort leSeverity (rule_failed_login_threshold l 5 s.failedLogins).1 =
      (rule_failed_login_threshold l 5 s.failedLogins).1 := by
    apply List.Sorted.insertionSort_eq
    apply List.pairwise_of_forall_mem_list
    intro a ha b hb
    have ha' := (rule_failed_stream u l s.failedLogins h).2 a ha
    have hb' := (rule_failed_stream u l s.failedLogins h).2 b hb
    show leSeverity a b
    simp [leSeverity, severityRank, ha'.2.2, hb'.2.2]
  have hcat : concatAlerts l s =
      ({ seenOrigins := s.seenOrigins,
         failedLogins := (rule_failed_login_threshold l 5 s.failedLogins).2 },
       Except.ok (rule_failed_login_threshold l 5 s.failedLogins).1) := by
    unfold concatAlerts
    rw [h3]
    simp [h1, h2]
  unfold detect_all
  rw [hcat]
  simp [hsort]

theorem detectRuns_failed (u : String) :
    ∀ (bs : List (List LogRecord)) (s : DetectState),
      (∀ r ∈ bs.flatten, r.type = some "failed_login" ∧ truthy r.user = some u) →
      ∃ os : List (List Alert),
        (detectRuns bs s).1 = os.map Except.ok ∧
        os.flatten.map (fun a => a.failed_count) =
          ((List.range' (dictGet s.failedLogins u 0 + 1) bs.flatten.length).filter
            (fun n => decide (5 ≤ n))).map some ∧
        (∀ a ∈ os.flatten, a.user = u ∧ a.reason = "failed_login_threshold" ∧
          a.severity = "high") ∧
        dictGet ((detectRuns bs s).2).failedLogins u 0 =
          dictGet s.failedLogins u 0 + bs.flatten.length := by
  intro bs
  induction bs with
  | nil =>
    intro s _
    refine ⟨[], rfl, rfl, ?_, ?_⟩
    · intro a ha
      simp at ha
    · simp [detectRuns]
  | cons b bs ih =>
    intro s h
    have hb : ∀ r ∈ b, r.type = some "failed_login" ∧ truthy r.user = some u := by
      intro r hr
      exact h r (by simp [List.flatten_cons, hr])
    have hbs : ∀ r ∈ bs.flatten, r.type = some "failed_login" ∧ truthy r.user = some u := by
      intro r hr
      exact h r (by simp [List.flatten_cons, hr])
    have hstep := detect_all_failed_only u b s hb
    set s₁ : DetectState :=
      { seenOrigins := s.seenOrigins,
        failedLogins := (rule_failed_login_threshold b 5 s.failedLogins).2 } with hs₁
    obtain ⟨os, ho1, ho2, ho3, ho4⟩ := ih s₁ hbs
    have hget : dictGet s₁.failedLogins u 0 = dictGet s.failedLogins u 0 + b.length := by
      rw [hs₁]
      have := dictGet_rule_failed_login_threshold b 5 u s.failedLogins
      rw [this]
      have hcount : countFailedFor b u = b.length := by
        unfold countFailedFor
        have : b.filter (isFailedFor u) = b := by
          apply List.filter_eq_self.mpr
          intro r hr
          simp [isFailedFor, (hb r hr).1, (hb r hr).2]
        rw [this]
      rw [hcount]
    refine ⟨(rule_failed_login_threshold b 5 s.failedLogins).1 :: os, ?_, ?_, ?_, ?_⟩
    · simp only [detectRuns, hstep, ho1, List.map_cons]
    · have hbatch := (rule_failed_stream u b s.failedLogins hb).1
      rw [List.flatten_cons, List.map_append, hbatch, ho2, hget]
      rw [List.flatten_cons, List.length_append]
      rw [← List.map_append, ← List.filter_append]
      have harr : dictGet s.failedLogins u 0 + b.length + 1 =
          dictGet s.failedLogins u 0 + 1 + b.length := by omega
      rw [harr, List.range'_append_1, Nat.add_comm bs.flatten.length b.length]
    · intro a ha
      rw [List.flatten_cons] at ha
      rcases List.mem_append.mp ha with h1 | h1
      · exact (rule_failed_stream u b s.failedLogins hb).2 a h1
      · exact ho3 a h1
    · simp only [detectRuns, hstep]
      rw [ho4, hget, List.flatten_cons, List.length_append]
      omega

theorem filter_five_range' :
    ∀ N : Nat, (List.range' 1 N).filter (fun n => decide (5 ≤ n)) =
      List.range' 5 (N - 4) := by
  intro N
  induction N with
  | zero => rfl
  | succ n ih =>
    rw [List.range'_concat, List.filter_append, ih]
    by_cases h5 : 5 ≤ n + 1
    · have hsing : List.filter (fun n => decide (5 ≤ n)) [1 + 1 * n] = [1 + 1 * n] := by
        simp only [List.filter_cons, List.filter_nil]
        have hd : decide ((5 : Nat) ≤ 1 + 1 * n) = true := decide_eq_true (by omega)
        rw [hd]
        rfl
      rw [hsing]
      have h4 : n + 1 - 4 = (n - 4) + 1 := by omega
      rw [h4, List.range'_concat]
      have : 5 + 1 * (n - 4) = 1 + 1 * n := by omega
      rw [this]
    · have hsing : List.filter (fun n => decide (5 ≤ n)) [1 + 1 * n] = [] := by
        simp only [List.filter_cons, List.filter_nil]
        have hd : decide ((5 : Nat) ≤ 1 + 1 * n) = false := decide_eq_false (by omega)
        rw [hd]
        rfl
      rw [hsing, List.append_nil]
      have : n + 1 - 4 = n - 4 := by omega
      rw [this]

/-- Claim C1: from a fresh state, submitting `N` failed-login records bearing
one user, split into batches across any number of `detect_all` calls with the
default threshold 5, yields exactly `N - 4` alerts (that is,
`max(0, N - threshold + 1)`), all with `reason = failed_login_threshold` and
`severity = high`, whose `failed_count` values are `5, 6, ..., N` in order —
one alert per record whose updated running counter reaches the threshold. -/
theorem c1_failed_login_threshold (bs : List (List LogRecord)) (u : String)
    (h : ∀ r ∈ bs.flatten, r.type = some "failed_login" ∧ truthy r.user = some u) :
    ∃ os : List (List Alert),
      (detectRuns bs ⟨[], []⟩).1 = os.map Except.ok ∧
      os.flatten.map (fun a => a.failed_count) =
        (List.range' 5 (bs.flatten.length - 4)).map some ∧
      os.flatten.length = bs.flatten.length - 4 ∧
      (∀ a ∈ os.flatten, a.user = u ∧ a.reason = "failed_login_threshold" ∧
        a.severity = "high") := by
  obtain ⟨os, h1, h2, h3, _⟩ := detectRuns_failed u bs ⟨[], []⟩ h
  have hz : dictGet (⟨[], []⟩ : DetectState).failedLogins u 0 = 0 := rfl
  rw [hz] at h2
  rw [Nat.zero_add, filter_five_range'] at h2
  refine ⟨os, h1, h2, ?_, h3⟩
  have hlen := congrArg List.length h2
  rw [List.length_map, List.length_map, List.length_range'] at hlen
  exact hlen

/-- Witness for C1: six failed logins for `bob`, split `3 + 3` over two
calls, give exactly the two alerts with `failed_count` 5 then 6. -/
theorem c1_failed_login_threshold_witness :
    (∀ r ∈ ([[⟨some "failed_login", some "bob", none, none, none⟩,
              ⟨some "failed_login", some "bob", none, none, none⟩,
              ⟨some "failed_login", some "bob", none, none, none⟩],
             [⟨some "failed_login", some "bob", none, none, none⟩,
              ⟨some "failed_login", some "bob", none, none, none⟩,
              ⟨some "failed_login", some "bob", none, none, none⟩]] :
              List (List LogRecord)).flatten,
      r.type = some "failed_login" ∧ truthy r.user = some "bob") ∧
    (∃ os : List (List Alert),
      (detectRuns [[⟨some "failed_login", some "bob", none, none, none⟩,
                    ⟨some "failed_login", some "bob", none, none, none⟩,
                    ⟨some "failed_login", some "bob", none, none, none⟩],
                   [⟨some "failed_login", some "bob", none, none, none⟩,
                    ⟨some "failed_login", some "bob", none, none, none⟩,
                    ⟨some "failed_login", some "bob", none, none, none⟩]] ⟨[], []⟩).1 =
        os.map Except.ok ∧
      os.flatten.map (fun a => a.failed_count) = [some 5, some 6] ∧
      os.flatten.length = 2 ∧
      (∀ a ∈ os.flatten, a.user = "bob" ∧ a.reason = "failed_login_threshold" ∧
        a.severity = "high")) := by
  refine ⟨by decide, ?_⟩
  have h := c1_failed_login_threshold
    [[⟨some "failed_login", some "bob", none, none, none⟩,
      ⟨some "failed_login", some "bob", none, none, none⟩,
      ⟨some "failed_login", some "bob", none, none, none⟩],
     [⟨some "failed_login", some "bob", none, none, none⟩,
      ⟨some "failed_login", some "bob", none, none, none⟩,
      ⟨some "failed_login", some "bob", none, none, none⟩]] "bob" (by decide)
  simpa using h

/-! ### Aggregation and severity ordering: claim C2 -/

theorem detect_all_ok (logs : List LogRecord) (s : DetectState) (out : List Alert)
    (h : (detect_all logs s).2 = Except.ok out) :
    ∃ ra, rule_rapid_multiple_logins logs 60 = Except.ok ra ∧
      out = List.insertionSort leSeverity
        ((rule_login_from_new_origin logs s.seenOrigins).1 ++
         (rule_failed_login_threshold logs 5 s.failedLogins).1 ++
         rule_login_unusual_time logs (22, 6) ++ ra) := by
  unfold detect_all concatAlerts at h
  cases hr : rule_rapid_multiple_logins logs 60 with
  | error e =>
    rw [hr] at h
    simp at h
  | ok ra =>
    rw [hr] at h
    simp at h
    exact ⟨ra, rfl, by rw [← h]; simp [List.append_assoc]⟩

theorem insertionSort_filter_rank (cat : List Alert) (k : Nat) :
    (List.insertionSort leSeverity cat).filter (fun a => severityRank a.severity == k) =
      cat.filter (fun a => severityRank a.severity == k) := by
  have hperm : List.Perm
      ((List.insertionSort leSeverity cat).filter (fun a => severityRank a.severity == k))
      (cat.filter (fun a => severityRank a.severity == k)) :=
    (List.perm_insertionSort leSeverity cat).filter _
  have hpair : (cat.filter (fun a => severityRank a.severity == k)).Pairwise leSeverity := by
    apply List.pairwise_of_forall_mem_list
    intro a ha b hb
    have ha' : severityRank a.severity = k := by
      simpa using (List.mem_filter.mp ha).2
    have hb' : severityRank b.severity = k := by
      simpa using (List.mem_filter.mp hb).2
    show leSeverity a b
    unfold leSeverity
    rw [ha', hb']
  have hsub : List.Sublist (cat.filter (fun a => severityRank a.severity == k))
      (List.insertionSort leSeverity cat) :=
    List.sublist_insertionSort hpair (List.filter_sublist cat)
  have hidem : (cat.filter (fun a => severityRank a.severity == k)).filter
        (fun a => severityRank a.severity == k) =
      cat.filter (fun a => severityRank a.severity == k) := by
    apply List.filter_eq_self.mpr
    intro a ha
    exact (List.mem_filter.mp ha).2
  have hsub2 : List.Sublist (cat.filter (fun a => severityRank a.severity == k))
      ((List.insertionSort leSeverity cat).filter (fun a => severityRank a.severity == k)) := by
    have := hsub.filter (fun a => severityRank a.severity == k)
    rwa [hidem] at this
  exact (hsub2.eq_of_length hperm.length_eq.symm).symm

/-- Claim C2: a successful `detect_all` call returns exactly the stable
severity sort of the four rules' concatenated alerts, in rule order
new-origin, failed-threshold, unusual-time, rapid: the output is sorted by
severity rank (`high` before `medium` before `low`), is a permutation of the
concatenation (nothing deduplicated or dropped), each severity class keeps
the concatenation's relative order, and every unrecognized severity ranks
after the three known ones. -/
theorem c2_severity_sort (logs : List LogRecord) (s : DetectState) (out : List Alert)
    (h : (detect_all logs s).2 = Except.ok out) :
    ∃ ra, rule_rapid_multiple_logins logs 60 = Except.ok ra ∧
      List.Sorted leSeverity out ∧
      out.Perm ((rule_login_from_new_origin logs s.seenOrigins).1 ++
        (rule_failed_login_threshold logs 5 s.failedLogins).1 ++
        rule_login_unusual_time logs (22, 6) ++ ra) ∧
      (∀ k : Nat, out.filter (fun a => severityRank a.severity == k) =
        ((rule_login_from_new_origin logs s.seenOrigins).1 ++
         (rule_failed_login_threshold logs 5 s.failedLogins).1 ++
         rule_login_unusual_time logs (22, 6) ++ ra).filter
          (fun a => severityRank a.severity == k)) ∧
      (∀ sev : String, sev ≠ "high" → sev ≠ "medium" → sev ≠ "low" →
        severityRank sev = 3) := by
  obtain ⟨ra, hra, hout⟩ := detect_all_ok logs s out h
  subst hout
  refine ⟨ra, hra, List.sorted_insertionSort leSeverity _,
    List.perm_insertionSort leSeverity _, fun k => insertionSort_filter_rank _ k, ?_⟩
  intro sev h1 h2 h3
  simp [severityRank, h1, h2, h3]

/-- Witness for C2: a batch making all three severities fire (prior state has
four failed logins for `bob`) sorts to high, then medium, then low. -/
theorem c2_severity_sort_witness :
    (detect_all [⟨some "login", some "alice", some "US", none, some "2025-01-01T23:00:00Z"⟩,
                 ⟨some "failed_login", some "bob", none, none, none⟩]
        ⟨[], [("bob", 4)]⟩).2 =
      Except.ok
        [mkFailedAlert "bob" 5 ⟨some "failed_login", some "bob", none, none, none⟩,
         mkNewOriginAlert "alice" "US"
           ⟨some "login", some "alice", some "US", none, some "2025-01-01T23:00:00Z"⟩,
         mkUnusualAlert "alice" 23
           ⟨some "login", some "alice", some "US", none, some "2025-01-01T23:00:00Z"⟩] ∧
    List.Sorted leSeverity
      [mkFailedAlert "bob" 5 ⟨some "failed_login", some "bob", none, none, none⟩,
       mkNewOriginAlert "alice" "US"
         ⟨some "login", some "alice", some "US", none, some "2025-01-01T23:00:00Z"⟩,
       mkUnusualAlert "alice" 23
         ⟨some "login", some "alice", some "US", none, some "2025-01-01T23:00:00Z"⟩] := by
  constructor
  · decide
  · obtain ⟨ra, hra, hsorted, hrest⟩ := c2_severity_sort
      [⟨some "login", some "alice", some "US", none, some "2025-01-01T23:00:00Z"⟩,
       ⟨some "failed_login", some "bob", none, none, none⟩]
      ⟨[], [("bob", 4)]⟩
      [mkFailedAlert "bob" 5 ⟨some "failed_login", some "bob", none, none, none⟩,
       mkNewOriginAlert "alice" "US"
         ⟨some "login", some "alice", some "US", none, some "2025-01-01T23:00:00Z"⟩,
       mkUnusualAlert "alice" 23
         ⟨some "login", some "alice", some "US", none, some "2025-01-01T23:00:00Z"⟩]
      (by decide)
    exact hsorted

/-! ### Rapid-logins rule: claim C4 -/

theorem appendTime_keys (m : List (String × List PyDateTime)) (u : String) (d : PyDateTime) :
    (appendTime m u d).map Prod.fst = m.map Prod.fst ∨
      ((appendTime m u d).map Prod.fst = m.map Prod.fst ++ [u] ∧
        u ∉ m.map Prod.fst) := by
  induction m with
  | nil => right; simp [appendTime]
  | cons p rest ih =>
    obtain ⟨k, ts⟩ := p
    by_cases hk : k = u
    · left
      simp [appendTime, hk]
    · rcases ih with h | ⟨h, hmem⟩
      · left
        simp [appendTime, hk, h]
      · right
        constructor
        · simp [appendTime, hk, h]
        · simp only [List.map_cons, List.mem_cons]
          rintro (h1 | h1)
          · exact hk h1.symm
          · exact hmem h1

theorem collectTimes_keys_nodup :
    ∀ (logs : List LogRecord) (m : List (String × List PyDateTime)),
      (m.map Prod.fst).Nodup → ((collectTimes logs m).map Prod.fst).Nodup := by
  intro logs
  induction logs with
  | nil => intro m h; exact h
  | cons r rest ih =>
    intro m h
    by_cases ht : r.type = some "login"
    · cases hu : truthy r.user with
      | none => simpa [collectTimes, ht, hu] using ih m h
      | some u =>
        cases hts : truthy r.timestamp with
        | none => simpa [collectTimes, ht, hu, hts] using ih m h
        | some tstr =>
          cases hp : parseTimestamp tstr with
          | none => simpa [collectTimes, ht, hu, hts, hp] using ih m h
          | some d =>
            have hnd : ((appendTime m u d).map Prod.fst).Nodup := by
              rcases appendTime_keys m u d with hk | ⟨hk, hmem⟩
              · rwa [hk]
              · rw [hk, List.nodup_append]
                refine ⟨h, List.nodup_singleton u, ?_⟩
                intro x hx hxu
                rw [List.mem_singleton.mp hxu] at hx
                exact hmem hx
            simpa [collectTimes, ht, hu, hts, hp] using ih _ hnd
    · simpa [collectTimes, ht] using ih m h

theorem mem_rapidGroups (w : Nat) :
    ∀ (g : List (String × List PyDateTime)) (as : List Alert),
      rapidGroups w g = Except.ok as → ∀ a ∈ as,
        ∃ ts, (a.user, ts) ∈ g ∧ a = mkRapidAlert a.user ts.length w ∧
          hasRapidPair w (List.insertionSort leInstant ts) = true := by
  intro g
  induction g with
  | nil =>
    intro as h a ha
    simp only [rapidGroups] at h
    cases h
    cases ha
  | cons p rest ih =>
    obtain ⟨u, ts⟩ := p
    intro as h a ha
    simp only [rapidGroups] at h
    by_cases hmix : awareMixed ts
    · rw [if_pos hmix] at h
      cases h
    · rw [if_neg hmix] at h
      cases hrest : rapidGroups w rest with
      | error e => rw [hrest] at h; cases h
      | ok as' =>
        rw [hrest] at h
        by_cases hpair : hasRapidPair w (List.insertionSort leInstant ts)
        · rw [if_pos hpair] at h
          cases h
          rcases List.mem_append.mp ha with h1 | h1
          · rcases List.mem_singleton.mp h1 with rfl
            exact ⟨ts, List.mem_cons_self _ _, rfl, hpair⟩
          · obtain ⟨ts', hmem, heq, hp⟩ := ih as' hrest a h1
            exact ⟨ts', List.mem_cons_of_mem _ hmem, heq, hp⟩
        · rw [if_neg hpair] at h
          cases h
          rcases List.mem_append.mp ha with h1 | h1
          · cases h1
          · obtain ⟨ts', hmem, heq, hp⟩ := ih as' hrest a h1
            exact ⟨ts', List.mem_cons_of_mem _ hmem, heq, hp⟩

theorem rapidGroups_users_sublist (w : Nat) :
    ∀ (g : List (String × List PyDateTime)) (as : List Alert),
      rapidGroups w g = Except.ok as →
        List.Sublist (as.map (fun a => a.user)) (g.map Prod.fst) := by
  intro g
  induction g with
  | nil =>
    intro as h
    simp only [rapidGroups] at h
    cases h
    simp
  | cons p rest ih =>
    obtain ⟨u, ts⟩ := p
    intro as h
    simp only [rapidGroups] at h
    by_cases hmix : awareMixed ts
    · rw [if_pos hmix] at h
      cases h
    · rw [if_neg hmix] at h
      cases hrest : rapidGroups w rest with
      | error e => rw [hrest] at h; cases h
      | ok as' =>
        rw [hrest] at h
        by_cases hpair : hasRapidPair w (List.insertionSort leInstant ts)
        · rw [if_pos hpair] at h
          cases h
          simpa [mkRapidAlert] using List.Sublist.cons₂ u (ih as' hrest)
        · rw [if_neg hpair] at h
          cases h
          simpa using List.Sublist.cons u (ih as' hrest)

theorem rapidGroups_fires_of_mem (w : Nat) :
    ∀ (g : List (String × List PyDateTime)) (as : List Alert) (u : String)
      (ts : List PyDateTime),
      rapidGroups w g = Except.ok as → (u, ts) ∈ g →
      hasRapidPair w (List.insertionSort leInstant ts) = true →
      ∃ a ∈ as, a.user = u := by
  intro g
  induction g with
  | nil =>
    intro as u ts _ hmem
    cases hmem
  | cons p rest ih =>
    obtain ⟨u₀, ts₀⟩ := p
    intro as u ts h hmem hpair
    simp only [rapidGroups] at h
    by_cases hmix : awareMixed ts₀
    · rw [if_pos hmix] at h
      cases h
    · rw [if_neg hmix] at h
      cases hrest : rapidGroups w rest with
      | error e => rw [hrest] at h; cases h
      | ok as' =>
        rw [hrest] at h
        rcases List.mem_cons.mp hmem with h1 | h1
        · obtain ⟨h1u, h1t⟩ := Prod.mk.injEq .. ▸ h1
          subst h1u
          subst h1t
          rw [if_pos hpair] at h
          cases h
          exact ⟨mkRapidAlert u ts.length w, List.mem_append_left _ (List.mem_singleton_self _),
            rfl⟩
        · obtain ⟨a, hain, hau⟩ := ih as' u ts hrest h1 hpair
          by_cases hp₀ : hasRapidPair w (List.insertionSort leInstant ts₀)
          · rw [if_pos hp₀] at h
            cases h
            exact ⟨a, List.mem_append_right _ hain, hau⟩
          · rw [if_neg hp₀] at h
            cases h
            exact ⟨a, by simpa using hain, hau⟩

theorem dictFind_of_mem {α : Type} :
    ∀ (g : List (String × α)) (u : String) (v : α),
      (g.map Prod.fst).Nodup → (u, v) ∈ g → dictFind g u = some v := by
  intro g
  induction g with
  | nil =>
    intro u v _ hmem
    cases hmem
  | cons p rest ih =>
    obtain ⟨k, w⟩ := p
    intro u v hnd hmem
    rcases List.mem_cons.mp hmem with h1 | h1
    · obtain ⟨h1u, h1v⟩ := Prod.mk.injEq .. ▸ h1
      subst h1u
      subst h1v
      simp [dictFind]
    · have hk : k ≠ u := by
        intro hk
        subst hk
        have : k ∈ rest.map Prod.fst := by
          exact List.mem_map.mpr ⟨(k, v), h1, rfl⟩
        simp only [List.map_cons, List.nodup_cons] at hnd
        exact hnd.1 this
      have hnd' : (rest.map Prod.fst).Nodup := by
        simp only [List.map_cons, List.nodup_cons] at hnd
        exact hnd.2
      simp [dictFind, hk, ih u v hnd' h1]

theorem length_filter_user_le_one (as : List Alert)
    (hnd : (as.map (fun a => a.user)).Nodup) (u : String) :
    (as.filter (fun a => a.user == u)).length ≤ 1 := by
  induction as with
  | nil => simp
  | cons a rest ih =>
    simp only [List.map_cons, List.nodup_cons] at hnd
    by_cases ha : a.user = u
    · have hnone : rest.filter (fun a => a.user == u) = [] := by
        apply List.filter_eq_nil_iff.mpr
        intro b hb
        simp only [beq_iff_eq]
        intro hbu
        exact hnd.1 (List.mem_map.mpr ⟨b, hb, by rw [hbu, ha]⟩)
      simp [List.filter_cons, ha, hnone]
    · have := ih hnd.2
      simpa [List.filter_cons, ha] using this

theorem hasRapidPair_iff (w : Nat) :
    ∀ l : List PyDateTime, hasRapidPair w l = true ↔
      ∃ p ∈ l.zip l.tail, 0 < p.2.instMicros - p.1.instMicros ∧
        p.2.instMicros - p.1.instMicros < (w : Int) * 1000000 := by
  intro l
  match l with
  | [] =>
    have h0 : hasRapidPair w [] = false := rfl
    rw [h0]
    simp
  | [a] =>
    have h0 : hasRapidPair w [a] = false := rfl
    rw [h0]
    simp
  | a :: b :: rest =>
    rw [hasRapidPair]
    have hz : (a :: b :: rest).zip (a :: b :: rest).tail =
        (a, b) :: (b :: rest).zip ((b :: rest).tail) := rfl
    rw [hz]
    by_cases hc : 0 < b.instMicros - a.instMicros ∧
        b.instMicros - a.instMicros < (w : Int) * 1000000
    · simp only [if_pos hc, true_iff]
      exact ⟨(a, b), List.mem_cons_self _ _, hc.1, hc.2⟩
    · rw [if_neg hc]
      rw [hasRapidPair_iff w (b :: rest)]
      constructor
      · rintro ⟨p, hp, h1, h2⟩
        exact ⟨p, List.mem_cons_of_mem _ hp, h1, h2⟩
      · rintro ⟨p, hp, h1, h2⟩
        rcases List.mem_cons.mp hp with hp | hp
        · exfalso
          subst hp
          exact hc ⟨h1, h2⟩
        · exact ⟨p, hp, h1, h2⟩

theorem mem_of_dictFind {α : Type} :
    ∀ (g : List (String × α)) (u : String) (v : α),
      dictFind g u = some v → (u, v) ∈ g := by
  intro g
  induction g with
  | nil =>
    intro u v h
    simp [dictFind] at h
  | cons p rest ih =>
    obtain ⟨k, w⟩ := p
    intro u v h
    by_cases hk : k = u
    · subst hk
      simp only [dictFind, eq_self_iff_true, if_true, Option.some.injEq] at h
      subst h
      exact List.mem_cons_self _ _
    · simp only [dictFind, if_neg hk] at h
      exact List.mem_cons_of_mem _ (ih u v h)

/-- Claim C4: when the rapid-logins rule returns alerts, each user gets at
most one alert per call; every alert is built by `mkRapidAlert` from the
user's batch-local group of parsed login times (`logins_in_window` is that
group's size, with the given `window_seconds`); an alert exists for a user
exactly when the ascending sort of that group has an adjacent pair whose gap
is strictly between 0 and the window (so equal timestamps, gap 0, never
fire); and the scanning loop fires precisely when such an adjacent pair
exists.  The grouping is rebuilt from the batch on every call, so no state
persists. -/
theorem c4_rapid_single_fire (logs : List LogRecord) (w : Nat) (as : List Alert)
    (h : rule_rapid_multiple_logins logs w = Except.ok as) :
    (∀ u, (as.filter (fun a => a.user == u)).length ≤ 1) ∧
    (∀ a ∈ as, ∃ ts, dictFind (collectTimes logs []) a.user = some ts ∧
        a = mkRapidAlert a.user ts.length w ∧
        hasRapidPair w (List.insertionSort leInstant ts) = true) ∧
    (∀ u ts, dictFind (collectTimes logs []) u = some ts →
        ((∃ a ∈ as, a.user = u) ↔
          hasRapidPair w (List.insertionSort leInstant ts) = true)) ∧
    (∀ l : List PyDateTime, hasRapidPair w l = true ↔
        ∃ p ∈ l.zip l.tail, 0 < p.2.instMicros - p.1.instMicros ∧
          p.2.instMicros - p.1.instMicros < (w : Int) * 1000000) := by
  have hnd : ((collectTimes logs []).map Prod.fst).Nodup :=
    collectTimes_keys_nodup logs [] (by simp)
  have hok : rapidGroups w (collectTimes logs []) = Except.ok as := h
  refine ⟨?_, ?_, ?_, hasRapidPair_iff w⟩
  · intro u
    apply length_filter_user_le_one
    exact (rapidGroups_users_sublist w _ as hok).nodup hnd
  · intro a ha
    obtain ⟨ts, hmem, heq, hp⟩ := mem_rapidGroups w _ as hok a ha
    exact ⟨ts, dictFind_of_mem _ _ _ hnd hmem, heq, hp⟩
  · intro u ts hfind
    constructor
    · rintro ⟨a, ha, rfl⟩
      obtain ⟨ts', hmem, _, hp⟩ := mem_rapidGroups w _ as hok a ha
      have := dictFind_of_mem _ _ _ hnd hmem
      rw [hfind] at this
      cases this
      exact hp
    · intro hp
      exact rapidGroups_fires_of_mem w _ as u ts hok (mem_of_dictFind _ u ts hfind) hp

/-- Witness for C4: timestamps `T`, `T+10s`, `T+200s` for one user in one
batch give exactly one alert (`logins_in_window = 3`), and two equal
timestamps (gap 0) give none. -/
theorem c4_rapid_single_fire_witness :
    rule_rapid_multiple_logins
        [⟨some "login", some "u", none, none, some "2025-01-01T12:00:00Z"⟩,
         ⟨some "login", some "u", none, none, some "2025-01-01T12:00:10Z"⟩,
         ⟨some "login", some "u", none, none, some "2025-01-01T12:03:20Z"⟩] 60 =
      Except.ok [mkRapidAlert "u" 3 60] ∧
    ([mkRapidAlert "u" 3 60].filter (fun a => a.user == "u")).length ≤ 1 ∧
    rule_rapid_multiple_logins
        [⟨some "login", some "v", none, none, some "2025-01-01T12:00:00Z"⟩,
         ⟨some "login", some "v", none, none, some "2025-01-01T12:00:00Z"⟩] 60 =
      Except.ok [] := by
  refine ⟨by decide, ?_, by decide⟩
  exact (c4_rapid_single_fire
    [⟨some "login", some "u", none, none, some "2025-01-01T12:00:00Z"⟩,
     ⟨some "login", some "u", none, none, some "2025-01-01T12:00:10Z"⟩,
     ⟨some "login", some "u", none, none, some "2025-01-01T12:03:20Z"⟩] 60
    [mkRapidAlert "u" 3 60] (by decide)).1 "u"

/-! ### Alert shapes: claims C8, C6, C7 -/

theorem mem_rule_login_from_new_origin {a : Alert} :
    ∀ (logs : List LogRecord) (seen : SeenMap),
      a ∈ (rule_login_from_new_origin logs seen).1 →
      ∃ r ∈ logs, ∃ u o, r.type = some "login" ∧ truthy r.user = some u ∧
        truthy r.origin = some o ∧ a = mkNewOriginAlert u o r := by
  intro logs
  induction logs with
  | nil =>
    intro seen ha
    cases ha
  | cons r rest ih =>
    intro seen ha
    by_cases ht : r.type = some "login"
    · cases hu : truthy r.user with
      | none =>
        simp only [rule_login_from_new_origin, ht, if_pos, eq_self_iff_true, if_true, hu] at ha
        obtain ⟨r', hr', hrest⟩ := ih seen ha
        exact ⟨r', List.mem_cons_of_mem _ hr', hrest⟩
      | some u =>
        cases ho : truthy r.origin with
        | none =>
          simp only [rule_login_from_new_origin, ht, eq_self_iff_true, if_true, hu, ho] at ha
          obtain ⟨r', hr', hrest⟩ := ih seen ha
          exact ⟨r', List.mem_cons_of_mem _ hr', hrest⟩
        | some o =>
          by_cases hmem : o ∈ dictGet seen u []
          · simp only [rule_login_from_new_origin, ht, eq_self_iff_true, if_true, hu, ho,
              if_pos hmem] at ha
            obtain ⟨r', hr', hrest⟩ := ih seen ha
            exact ⟨r', List.mem_cons_of_mem _ hr', hrest⟩
          · simp only [rule_login_from_new_origin, ht, eq_self_iff_true, if_true, hu, ho,
              if_neg hmem] at ha
            rcases List.mem_cons.mp ha with h1 | h1
            · exact ⟨r, List.mem_cons_self _ _, u, o, ht, hu, ho, h1⟩
            · obtain ⟨r', hr', hrest⟩ := ih _ h1
              exact ⟨r', List.mem_cons_of_mem _ hr', hrest⟩
    · simp only [rule_login_from_new_origin, ht, if_neg, Bool.false_eq_true] at ha
      obtain ⟨r', hr', hrest⟩ := ih seen (by simpa [ht] using ha)
      exact ⟨r', List.mem_cons_of_mem _ hr', hrest⟩

theorem mem_rule_failed_login_threshold {a : Alert} :
    ∀ (logs : List LogRecord) (th : Nat) (m : CountMap),
      a ∈ (rule_failed_login_threshold logs th m).1 →
      ∃ r ∈ logs, ∃ u c, r.type = some "failed_login" ∧ truthy r.user = some u ∧
        th ≤ c ∧ a = mkFailedAlert u c r := by
  intro logs
  induction logs with
  | nil =>
    intro th m ha
    cases ha
  | cons r rest ih =>
    intro th m ha
    by_cases ht : r.type = some "failed_login"
    · cases hu : truthy r.user with
      | none =>
        simp only [rule_failed_login_threshold, ht, eq_self_iff_true, if_true, hu] at ha
        obtain ⟨r', hr', hrest⟩ := ih th m ha
        exact ⟨r', List.mem_cons_of_mem _ hr', hrest⟩
      | some u =>
        by_cases hc : th ≤ dictGet m u 0 + 1
        · simp only [rule_failed_login_threshold, ht, eq_self_iff_true, if_true, hu,
            if_pos hc] at ha
          rcases List.mem_cons.mp ha with h1 | h1
          · exact ⟨r, List.mem_cons_self _ _, u, dictGet m u 0 + 1, ht, hu, hc, h1⟩
          · obtain ⟨r', hr', hrest⟩ := ih th _ h1
            exact ⟨r', List.mem_cons_of_mem _ hr', hrest⟩
        · simp only [rule_failed_login_threshold, ht, eq_self_iff_true, if_true, hu,
            if_neg hc] at ha
          obtain ⟨r', hr', hrest⟩ := ih th _ ha
          exact ⟨r', List.mem_cons_of_mem _ hr', hrest⟩
    · simp only [rule_failed_login_threshold, ht] at ha
      obtain ⟨r', hr', hrest⟩ := ih th m (by simpa [ht] using ha)
      exact ⟨r', List.mem_cons_of_mem _ hr', hrest⟩

theorem mem_rule_login_unusual_time {a : Alert} :
    ∀ (logs : List LogRecord) (oh : Nat × Nat),
      a ∈ rule_login_unusual_time logs oh →
      ∃ r ∈ logs, ∃ u tstr dt, r.type = some "login" ∧ truthy r.user = some u ∧
        truthy r.timestamp = some tstr ∧ parseTimestamp tstr = some dt ∧
        (oh.1 ≤ dt.hour ∨ dt.hour < oh.2) ∧ a = mkUnusualAlert u dt.hour r := by
  intro logs
  induction logs with
  | nil =>
    intro oh ha
    cases ha
  | cons r rest ih =>
    intro oh ha
    by_cases ht : r.type = some "login"
    · cases hu : truthy r.user with
      | none =>
        simp only [rule_login_unusual_time, ht, eq_self_iff_true, if_true, hu] at ha
        obtain ⟨r', hr', hrest⟩ := ih oh ha
        exact ⟨r', List.mem_cons_of_mem _ hr', hrest⟩
      | some u =>
        cases hts : truthy r.timestamp with
        | none =>
          simp only [rule_login_unusual_time, ht, eq_self_iff_true, if_true, hu, hts] at ha
          obtain ⟨r', hr', hrest⟩ := ih oh ha
          exact ⟨r', List.mem_cons_of_mem _ hr', hrest⟩
        | some tstr =>
          cases hp : parseTimestamp tstr with
          | none =>
            simp only [rule_login_unusual_time, ht, eq_self_iff_true, if_true, hu, hts,
              hp] at ha
            obtain ⟨r', hr', hrest⟩ := ih oh ha
            exact ⟨r', List.mem_cons_of_mem _ hr', hrest⟩
          | some dt =>
            by_cases hh : oh.1 ≤ dt.hour ∨ dt.hour < oh.2
            · simp only [rule_login_unusual_time, ht, eq_self_iff_true, if_true, hu, hts,
                hp, if_pos hh] at ha
              rcases List.mem_cons.mp ha with h1 | h1
              · exact ⟨r, List.mem_cons_self _ _, u, tstr, dt, ht, hu, hts, hp, hh, h1⟩
              · obtain ⟨r', hr', hrest⟩ := ih oh h1
                exact ⟨r', List.mem_cons_of_mem _ hr', hrest⟩
            · simp only [rule_login_unusual_time, ht, eq_self_iff_true, if_true, hu, hts,
                hp, if_neg hh] at ha
              obtain ⟨r', hr', hrest⟩ := ih oh ha
              exact ⟨r', List.mem_cons_of_mem _ hr', hrest⟩
    · simp only [rule_login_unusual_time, ht] at ha
      obtain ⟨r', hr', hrest⟩ := ih oh (by simpa [ht] using ha)
      exact ⟨r', List.mem_cons_of_mem _ hr', hrest⟩

/-- Claim C8: every alert a successful `detect_all` returns carries one of
the four enumerated reasons, with the severity fully determined by the
reason: `new_origin`/`medium`, `failed_login_threshold`/`high`,
`unusual_login_time`/`low`, `rapid_logins`/`medium`. -/
theorem c8_reason_severity (logs : List LogRecord) (s : DetectState) (out : List Alert)
    (h : (detect_all logs s).2 = Except.ok out) :
    ∀ a ∈ out,
      (a.reason = "new_origin" ∧ a.severity = "medium") ∨
      (a.reason = "failed_login_threshold" ∧ a.severity = "high") ∨
      (a.reason = "unusual_login_time" ∧ a.severity = "low") ∨
      (a.reason = "rapid_logins" ∧ a.severity = "medium") := by
  obtain ⟨ra, hra, hout⟩ := detect_all_ok logs s out h
  subst hout
  intro a ha
  rw [List.mem_insertionSort] at ha
  rcases List.mem_append.mp ha with ha | ha₄
  rcases List.mem_append.mp ha with ha | ha₃
  rcases List.mem_append.mp ha with ha₁ | ha₂
  · obtain ⟨r, _, u, o, _, _, _, rfl⟩ := mem_rule_login_from_new_origin logs s.seenOrigins ha₁
    left
    exact ⟨rfl, rfl⟩
  · obtain ⟨r, _, u, c, _, _, _, rfl⟩ := mem_rule_failed_login_threshold logs 5 s.failedLogins ha₂
    right; left
    exact ⟨rfl, rfl⟩
  · obtain ⟨r, _, u, tstr, dt, _, _, _, _, _, rfl⟩ := mem_rule_login_unusual_time logs (22, 6) ha₃
    right; right; left
    exact ⟨rfl, rfl⟩
  · obtain ⟨ts, _, heq, _⟩ := mem_rapidGroups 60 _ ra hra a ha₄
    right; right; right
    rw [heq]
    exact ⟨rfl, rfl⟩

/-- Witness for C8 at a concrete run producing all three alert kinds plus a
rapid alert via a second user. -/
theorem c8_reason_severity_witness :
    (mkFailedAlert "bob" 5 ⟨some "failed_login", some "bob", none, none, none⟩).reason
        = "new_origin" ∧
      (mkFailedAlert "bob" 5 ⟨some "failed_login", some "bob", none, none, none⟩).severity
        = "medium" ∨
    (mkFailedAlert "bob" 5 ⟨some "failed_login", some "bob", none, none, none⟩).reason
        = "failed_login_threshold" ∧
      (mkFailedAlert "bob" 5 ⟨some "failed_login", some "bob", none, none, none⟩).severity
        = "high" ∨
    (mkFailedAlert "bob" 5 ⟨some "failed_login", some "bob", none, none, none⟩).reason
        = "unusual_login_time" ∧
      (mkFailedAlert "bob" 5 ⟨some "failed_login", some "bob", none, none, none⟩).severity
        = "low" ∨
    (mkFailedAlert "bob" 5 ⟨some "failed_login", some "bob", none, none, none⟩).reason
        = "rapid_logins" ∧
      (mkFailedAlert "bob" 5 ⟨some "failed_login", some "bob", none, none, none⟩).severity
        = "medium" :=
  c8_reason_severity
    [⟨some "login", some "alice", some "US", none, some "2025-01-01T23:00:00Z"⟩,
     ⟨some "failed_login", some "bob", none, none, none⟩]
    ⟨[], [("bob", 4)]⟩
    [mkFailedAlert "bob" 5 ⟨some "failed_login", some "bob", none, none, none⟩,
     mkNewOriginAlert "alice" "US"
       ⟨some "login", some "alice", some "US", none, some "2025-01-01T23:00:00Z"⟩,
     mkUnusualAlert "alice" 23
       ⟨some "login", some "alice", some "US", none, some "2025-01-01T23:00:00Z"⟩]
    (by decide)
    (mkFailedAlert "bob" 5 ⟨some "failed_login", some "bob", none, none, none⟩)
    (by decide)

/-- Counterexample for C6: the rapid-logins rule's alert sets `record` to
`times[i].__dict__ if hasattr(times[i], '__dict__') else None`, and CPython
`datetime` objects have no `__dict__`, so the alert carries the null
placeholder `None` rather than anything derived from the triggering
record. -/
theorem c6_record_counterexample :
    rule_rapid_multiple_logins
        [⟨some "login", some "u", none, none, some "2025-01-01T12:00:00Z"⟩,
         ⟨some "login", some "u", none, none, some "2025-01-01T12:00:10Z"⟩] 60 =
      Except.ok [mkRapidAlert "u" 2 60] ∧
    (mkRapidAlert "u" 2 60).record = none := by
  exact ⟨by decide, rfl⟩

/-- Claim C6 (amended): every alert from the new-origin, failed-threshold
and unusual-time rules carries `record = ` the triggering LogRecord (whose
truthy user matches the alert's); every `rapid_logins` alert instead carries
`record = none`, the `None` fallback for the missing `datetime.__dict__`. -/
theorem c6_record_field (logs : List LogRecord) (s : DetectState) (out : List Alert)
    (h : (detect_all logs s).2 = Except.ok out) :
    ∀ a ∈ out,
      (a.reason = "rapid_logins" → a.record = none) ∧
      (a.reason ≠ "rapid_logins" →
        ∃ r ∈ logs, a.record = some r ∧ truthy r.user = some a.user) := by
  obtain ⟨ra, hra, hout⟩ := detect_all_ok logs s out h
  subst hout
  intro a ha
  rw [List.mem_insertionSort] at ha
  rcases List.mem_append.mp ha with ha | ha₄
  rcases List.mem_append.mp ha with ha | ha₃
  rcases List.mem_append.mp ha with ha₁ | ha₂
  · obtain ⟨r, hr, u, o, _, hu, _, rfl⟩ := mem_rule_login_from_new_origin logs s.seenOrigins ha₁
    refine ⟨fun hreason => ?_, fun _ => ⟨r, hr, rfl, hu⟩⟩
    simp [mkNewOriginAlert] at hreason
  · obtain ⟨r, hr, u, c, _, hu, _, rfl⟩ := mem_rule_failed_login_threshold logs 5 s.failedLogins ha₂
    refine ⟨fun hreason => ?_, fun _ => ⟨r, hr, rfl, hu⟩⟩
    simp [mkFailedAlert] at hreason
  · obtain ⟨r, hr, u, tstr, dt, _, hu, _, _, _, rfl⟩ :=
      mem_rule_login_unusual_time logs (22, 6) ha₃
    refine ⟨fun hreason => ?_, fun _ => ⟨r, hr, rfl, hu⟩⟩
    simp [mkUnusualAlert] at hreason
  · obtain ⟨ts, _, heq, _⟩ := mem_rapidGroups 60 _ ra hra a ha₄
    rw [heq]
    refine ⟨fun _ => rfl, fun hreason => ?_⟩
    exact absurd rfl hreason

/-- Witness for C6 (amended) at a concrete run with a rapid alert. -/
theorem c6_record_field_witness :
    ((mkRapidAlert "u" 2 60).reason = "rapid_logins" →
      (mkRapidAlert "u" 2 60).record = none) ∧
    ((mkRapidAlert "u" 2 60).reason ≠ "rapid_logins" →
      ∃ r ∈ [(⟨some "login", some "u", none, none, some "2025-01-01T12:00:00Z"⟩ : LogRecord),
             ⟨some "login", some "u", none, none, some "2025-01-01T12:00:10Z"⟩],
        (mkRapidAlert "u" 2 60).record = some r ∧
        truthy r.user = some (mkRapidAlert "u" 2 60).user) :=
  c6_record_field
    [⟨some "login", some "u", none, none, some "2025-01-01T12:00:00Z"⟩,
     ⟨some "login", some "u", none, none, some "2025-01-01T12:00:10Z"⟩]
    ⟨[], []⟩ [mkRapidAlert "u" 2 60] (by decide)
    (mkRapidAlert "u" 2 60) (by decide)

/-- Claim C7 fails on the code: `times.sort()` in the rapid-logins rule sits
outside the `try`/`except`, and CPython raises `TypeError` when sorting a
mix of offset-aware (`...Z`) and offset-naive timestamps, so one user with
one `Z`-suffixed and one zone-less login timestamp aborts the whole
`detect()` call — while either record alone is processed fine. -/
theorem c7_mixed_timestamps_abort :
    (detect_all [⟨some "login", some "u", none, none, some "2025-01-01T12:00:00Z"⟩,
                 ⟨some "login", some "u", none, none, some "2025-01-01T12:00:10"⟩]
        ⟨[], []⟩).2 = Except.error () ∧
    (detect_all [⟨some "login", some "u", none, none, some "2025-01-01T12:00:00Z"⟩]
        ⟨[], []⟩).2 = Except.ok [] ∧
    (detect_all [⟨some "login", some "u", none, none, some "2025-01-01T12:00:10"⟩]
        ⟨[], []⟩).2 = Except.ok [] := by
  refine ⟨by decide, by decide, by decide⟩

/-- Witness for C5: hours 23 and 3 fire in the default (22, 6) window, hour
12 does not, and an unparsable timestamp is skipped with no alert. -/
theorem c5_unusual_time_window_witness :
    rule_login_unusual_time
        [⟨some "login", some "a", none, none, some "2025-01-01T23:00:00Z"⟩] (22, 6) =
      (if 22 ≤ (23 : Nat) ∨ (23 : Nat) < 6 then
        [mkUnusualAlert "a" 23 ⟨some "login", some "a", none, none,
          some "2025-01-01T23:00:00Z"⟩] else []) ∧
    rule_login_unusual_time
        [⟨some "login", some "a", none, none, some "2025-01-01T03:00:00Z"⟩] (22, 6) =
      (if 22 ≤ (3 : Nat) ∨ (3 : Nat) < 6 then
        [mkUnusualAlert "a" 3 ⟨some "login", some "a", none, none,
          some "2025-01-01T03:00:00Z"⟩] else []) ∧
    rule_login_unusual_time
        [⟨some "login", some "a", none, none, some "2025-06-15T12:30:45Z"⟩] (22, 6) =
      (if 22 ≤ (12 : Nat) ∨ (12 : Nat) < 6 then
        [mkUnusualAlert "a" 12 ⟨some "login", some "a", none, none,
          some "2025-06-15T12:30:45Z"⟩] else []) ∧
    rule_login_unusual_time
        [⟨some "login", some "a", none, none, some "not-a-time"⟩] (22, 6) = [] := by
  refine ⟨?_, ?_, ?_, ?_⟩
  · exact c5_unusual_time_window.2.1
      ⟨some "login", some "a", none, none, some "2025-01-01T23:00:00Z"⟩ (22, 6)
      "a" "2025-01-01T23:00:00Z" ⟨63871455600000000, 23, true⟩ rfl (by decide) (by decide)
      (by decide)
  · exact c5_unusual_time_window.2.1
      ⟨some "login", some "a", none, none, some "2025-01-01T03:00:00Z"⟩ (22, 6)
      "a" "2025-01-01T03:00:00Z" ⟨63871383600000000, 3, true⟩ rfl (by decide) (by decide)
      (by decide)
  · exact c5_unusual_time_window.2.1
      ⟨some "login", some "a", none, none, some "2025-06-15T12:30:45Z"⟩ (22, 6)
      "a" "2025-06-15T12:30:45Z" ⟨63885673845000000, 12, true⟩ rfl (by decide) (by decide)
      (by decide)
  · exact c5_unusual_time_window.2.2
      ⟨some "login", some "a", none, none, some "not-a-time"⟩ (22, 6)
      "not-a-time" (by decide) (by decide)
